import Mathlib

/-!
Shallow embedding of the BIO-span decoder and PII sensitivity filter of
`src/predict.py` (functions `bio_to_spans` and the span-filtering loop of
`main`).

Numbers: Python floats are modelled as rationals (ℚ).  The scalar
exponential inside `torch.softmax` is floating-point in the source; the
embedding keeps the softmax structure (normalize the exponentials of a row,
read the predicted index's mass) but abstracts the exponential itself as an
explicit function parameter `pexp`, since no verified property depends on
its numeric values.  Python exceptions that can escape `bio_to_spans`
(the `ValueError` from unpacking `label.split("-", 1)` and the `IndexError`
from tensor indexing) are modelled with `Except`.

The `labels` module (`ID2LABEL`, `label_is_pii`) is imported by
`predict.py` but is not part of the sources; those two definitions are
modelled from the spec (see their doc comments).  The decoder itself is
kept parametric in the id-to-label registry so that theorems quantify over
every registry.
-/

/-- A Python exception escaping the decoder: the `ValueError` raised by
unpacking `label.split("-", 1)` into two variables when the label has no
dash, or the `IndexError` raised by indexing a tensor out of range. -/
inductive PyErr where
  | valueError : PyErr
  | indexError : PyErr
deriving Repr, DecidableEq

/-- Decidable equality of `Except` results, for evaluating the decoder on
concrete inputs. -/
instance {ε α : Type} [DecidableEq ε] [DecidableEq α] : DecidableEq (Except ε α) := fun a b =>
  match a, b with
  | Except.ok x, Except.ok y =>
    if h : x = y then isTrue (by rw [h]) else isFalse (by simp [h])
  | Except.error x, Except.error y =>
    if h : x = y then isTrue (by rw [h]) else isFalse (by simp [h])
  | Except.ok _, Except.error _ => isFalse (by simp)
  | Except.error _, Except.ok _ => isFalse (by simp)

/-- A decoded span, the tuple `(current_start, current_end, current_label,
current_confidence)` appended to `spans` in `bio_to_spans`.  `stop` stands
for the Python name `end`, a Lean keyword. -/
structure Span where
  start : Int
  stop : Int
  label : String
  conf : ℚ
deriving Repr, DecidableEq

/-- The open-span half of the decoder state: the source's
`current_label / current_start / current_end / current_confidence`
variables while `current_label is not None`.  The whole state is
`Option OpenCur`, `none` standing for `current_label is None`. -/
structure OpenCur where
  label : String
  start : Int
  stop : Int
  conf : ℚ
deriving Repr, DecidableEq

/-- An output entity of the filtering loop in `main`: the dict
`{start, end, label, pii}` appended to `ents` (confidence is dropped). -/
structure Ent where
  start : Int
  stop : Int
  label : String
  pii : Bool
deriving Repr, DecidableEq

/-- Helper for `splitFirstDash` on the character list. -/
def splitFirstDashAux : List Char → Option (List Char × List Char)
  | [] => none
  | c :: cs =>
    if c = '-' then some ([], cs)
    else
      match splitFirstDashAux cs with
      | some (l, r) => some (c :: l, r)
      | none => none

/-- Python `label.split("-", 1)` followed by unpacking into
`prefix, ent_type`: splits at the first dash; `none` models the
`ValueError` raised when the label contains no dash (split yields a
one-element list that cannot be unpacked into two variables). -/
def splitFirstDash (s : String) : Option (String × String) :=
  match splitFirstDashAux s.data with
  | some (l, r) => some (String.mk l, String.mk r)
  | none => none

/-- Model of `torch.softmax` on one row of logits, with the scalar
exponential abstracted as `pexp` (floating-point in the source): each entry
is its exponential divided by the row's total.  Length-preserving by
construction, as the real softmax is. -/
def torchSoftmax (pexp : ℚ → ℚ) (v : List ℚ) : List ℚ :=
  v.map (fun x => pexp x / (v.map pexp).sum)

/-- Python/torch indexing `t[i]` on a one-dimensional tensor: negative
indices count from the back; anything out of range raises `IndexError`. -/
def tensorGet (l : List ℚ) (i : Int) : Except PyErr ℚ :=
  let j : Int := if i < 0 then (l.length : Int) + i else i
  if j < 0 then Except.error PyErr.indexError
  else
    match l.get? j.toNat with
    | some x => Except.ok x
    | none => Except.error PyErr.indexError

/-- Lines 32-36 of `predict.py`: the per-token confidence.  With no logits
the confidence is the constant `1.0`; with logits it is
`softmax(logits[idx])[int(lid)]`, where either indexing step can raise
`IndexError` (`logits[idx]` when `idx` is past the last row, the row lookup
when `lid` is out of range). -/
def tokenConfidence (pexp : ℚ → ℚ) (logits : Option (List (List ℚ)))
    (idx : Nat) (lid : Int) : Except PyErr ℚ :=
  match logits with
  | none => Except.ok 1
  | some rows =>
    match rows.get? idx with
    | none => Except.error PyErr.indexError
    | some row => tensorGet (torchSoftmax pexp row) lid

/-- Modelled from the spec: the Label Registry's `ID2LABEL` map (the
`labels` module imported by `predict.py` is not among the sources).  It
maps a label id to a BIO tag string over the spec's entity types
(`PERSON_NAME`, `PHONE`, `EMAIL`, `CREDIT_CARD`, `CITY`, `LOCATION`,
`DATE`), with `O` at id 0 and `B`/`I` pairs for each type; ids outside the
table are absent (the decoder falls back to `"O"`). -/
def ID2LABEL : Int → Option String := fun i =>
  if i = 0 then some "O"
  else if i = 1 then some "B-PERSON_NAME"
  else if i = 2 then some "I-PERSON_NAME"
  else if i = 3 then some "B-PHONE"
  else if i = 4 then some "I-PHONE"
  else if i = 5 then some "B-EMAIL"
  else if i = 6 then some "I-EMAIL"
  else if i = 7 then some "B-CREDIT_CARD"
  else if i = 8 then some "I-CREDIT_CARD"
  else if i = 9 then some "B-CITY"
  else if i = 10 then some "I-CITY"
  else if i = 11 then some "B-LOCATION"
  else if i = 12 then some "I-LOCATION"
  else if i = 13 then some "B-DATE"
  else if i = 14 then some "I-DATE"
  else none

/-- Modelled from the spec: the Label Registry's `label_is_pii` predicate
(the `labels` module is not among the sources).  Sensitive categories per
the spec are name, phone, email and credit card; city, location and date
are non-PII. -/
def label_is_pii (ent : String) : Bool :=
  ent == "PERSON_NAME" || ent == "PHONE" || ent == "EMAIL" || ent == "CREDIT_CARD"

/-- Python's binary `min` on two floats, as used in
`min(current_confidence, confidence)`: the first argument when it is less
than or equal to the second, the second otherwise.  Agrees with `min` on ℚ
(`pymin_eq_min`) and is written with an explicit `if` so that concrete
instances reduce in the kernel. -/
def pymin (a b : ℚ) : ℚ :=
  if a ≤ b then a else b

/-- The span emitted for an open state: `(start, end, label, confidence)`. -/
def OpenCur.toSpan (c : OpenCur) : Span :=
  ⟨c.start, c.stop, c.label, c.conf⟩

/-- Appends the open span to the emitted list if one is open; the shape of
both the `O`/`B`/orphan-`I` emissions and the final flush of
`bio_to_spans`. -/
def flushSpans (spans : List Span) (cur : Option OpenCur) : List Span :=
  match cur with
  | some c => spans ++ [c.toSpan]
  | none => spans

/-- One iteration of the decoding loop of `bio_to_spans` (lines 26-62 of
`predict.py`) on the token `((start, end), lid)` at position `idx`, acting
on the state `(spans, cur)`.  Mirrors the source exactly: structural
markers `(0, 0)` are skipped before anything else; the label is looked up
with default `"O"`; the confidence is computed (possibly raising) before
the label is examined; `O` closes any open span; `B-X` closes any open span
and opens a new one; `I-X` extends a matching open span with the minimum
confidence and otherwise behaves like `B-X`; a label with a dash but a
prefix other than `B`/`I` falls through both branches (no-op). -/
def bioStep (id2label : Int → Option String) (pexp : ℚ → ℚ)
    (logits : Option (List (List ℚ))) (acc : List Span × Option OpenCur)
    (idx : Nat) (tok : (Int × Int) × Int) :
    Except PyErr (List Span × Option OpenCur) :=
  let s := tok.1.1
  let e := tok.1.2
  let lid := tok.2
  let spans := acc.1
  let cur := acc.2
  if s = 0 ∧ e = 0 then Except.ok (spans, cur)
  else
    let label := (id2label lid).getD "O"
    match tokenConfidence pexp logits idx lid with
    | Except.error err => Except.error err
    | Except.ok confidence =>
      if label = "O" then
        match cur with
        | some c => Except.ok (spans ++ [c.toSpan], none)
        | none => Except.ok (spans, cur)
      else
        match splitFirstDash label with
        | none => Except.error PyErr.valueError
        | some (pre, entType) =>
          if pre = "B" then
            Except.ok (flushSpans spans cur, some ⟨entType, s, e, confidence⟩)
          else if pre = "I" then
            match cur with
            | some c =>
              if c.label = entType then
                Except.ok (spans, some ⟨c.label, c.start, e, pymin c.conf confidence⟩)
              else
                Except.ok (spans ++ [c.toSpan], some ⟨entType, s, e, confidence⟩)
            | none => Except.ok (spans, some ⟨entType, s, e, confidence⟩)
          else
            Except.ok (spans, cur)

/-- The decoding loop: `for idx, ((start, end), lid) in
enumerate(zip(offsets, label_ids))`, threading the position counter and
the state, and propagating any raised exception. -/
def bioLoop (id2label : Int → Option String) (pexp : ℚ → ℚ)
    (logits : Option (List (List ℚ))) :
    List ((Int × Int) × Int) → Nat → List Span × Option OpenCur →
    Except PyErr (List Span × Option OpenCur)
  | [], _, acc => Except.ok acc
  | t :: ts, idx, acc =>
    match bioStep id2label pexp logits acc idx t with
    | Except.error err => Except.error err
    | Except.ok acc2 => bioLoop id2label pexp logits ts (idx + 1) acc2

/-- The function `bio_to_spans(text, offsets, label_ids, logits,
confidence_threshold)` of `predict.py`: run the loop over the zipped
offset/label streams from the empty state and flush any span still open at
the end of the stream.  The parameters `text` and `confidence_threshold`
appear in the source signature but are never read by the body. -/
def bio_to_spans (id2label : Int → Option String) (pexp : ℚ → ℚ)
    (text : String) (offsets : List (Int × Int)) (label_ids : List Int)
    (logits : Option (List (List ℚ))) (confidence_threshold : ℚ) :
    Except PyErr (List Span) :=
  match bioLoop id2label pexp logits (offsets.zip label_ids) 0 ([], none) with
  | Except.error err => Except.error err
  | Except.ok acc => Except.ok (flushSpans acc.1 acc.2)

/-- The span-filtering loop of `main` (lines 113-126 of `predict.py`): a
span is skipped when it is PII-typed and its confidence is below the
threshold, and every appended entity carries the registry's `is_pii`
flag.  No validation of the threshold is performed. -/
def sensitivityFilter : List Span → ℚ → List Ent
  | [], _ => []
  | sp :: rest, t =>
    if label_is_pii sp.label ∧ sp.conf < t then sensitivityFilter rest t
    else ⟨sp.start, sp.stop, sp.label, label_is_pii sp.label⟩ :: sensitivityFilter rest t

/-- The Sensitivity Filter contract as the spec words it: the subsequence
of spans whose type is not PII or whose confidence is at least the
threshold, in the original order, each kept span carrying the registry's
`is_pii` flag.  Used to compare the implementation against the spec. -/
def specFilter (spans : List Span) (t : ℚ) : List Ent :=
  (spans.filter (fun sp => !label_is_pii sp.label || decide (t ≤ sp.conf))).map
    (fun sp => ⟨sp.start, sp.stop, sp.label, label_is_pii sp.label⟩)

/-- The ghost open state for the confidence-aggregation argument: like
`OpenCur` but recording the confidences of every constituent token (the
token that opened the span and each matching `I` token that extended it),
in arrival order, instead of the running minimum. -/
structure GhostCur where
  label : String
  start : Int
  stop : Int
  confs : List ℚ
deriving Repr, DecidableEq

/-- A ghost span: a decoded span still carrying the list of its
constituent tokens' confidences. -/
structure GhostSpan where
  start : Int
  stop : Int
  label : String
  confs : List ℚ
deriving Repr, DecidableEq

/-- The minimum of a list of confidences (`1` for the empty list, which
never arises for a span: every span has at least its opening token). -/
def minConfs : List ℚ → ℚ
  | [] => 1
  | c :: cs => cs.foldl min c

/-- Erases a ghost span to the decoder's span, aggregating the constituent
confidences by their minimum. -/
def GhostSpan.toSpan (g : GhostSpan) : Span :=
  ⟨g.start, g.stop, g.label, minConfs g.confs⟩

/-- The ghost span emitted for a ghost open state. -/
def GhostCur.toGhostSpan (c : GhostCur) : GhostSpan :=
  ⟨c.start, c.stop, c.label, c.confs⟩

/-- Ghost counterpart of `flushSpans`. -/
def ghostFlush (spans : List GhostSpan) (cur : Option GhostCur) : List GhostSpan :=
  match cur with
  | some c => spans ++ [c.toGhostSpan]
  | none => spans

/-- Ghost counterpart of `bioStep`: identical control flow, but a token
that opens a span records the singleton confidence list and a matching `I`
token appends its confidence instead of taking the running minimum. -/
def ghostStep (id2label : Int → Option String) (pexp : ℚ → ℚ)
    (logits : Option (List (List ℚ))) (acc : List GhostSpan × Option GhostCur)
    (idx : Nat) (tok : (Int × Int) × Int) :
    Except PyErr (List GhostSpan × Option GhostCur) :=
  let s := tok.1.1
  let e := tok.1.2
  let lid := tok.2
  let spans := acc.1
  let cur := acc.2
  if s = 0 ∧ e = 0 then Except.ok (spans, cur)
  else
    let label := (id2label lid).getD "O"
    match tokenConfidence pexp logits idx lid with
    | Except.error err => Except.error err
    | Except.ok confidence =>
      if label = "O" then
        match cur with
        | some c => Except.ok (spans ++ [c.toGhostSpan], none)
        | none => Except.ok (spans, cur)
      else
        match splitFirstDash label with
        | none => Except.error PyErr.valueError
        | some (pre, entType) =>
          if pre = "B" then
            Except.ok (ghostFlush spans cur, some ⟨entType, s, e, [confidence]⟩)
          else if pre = "I" then
            match cur with
            | some c =>
              if c.label = entType then
                Except.ok (spans, some ⟨c.label, c.start, e, c.confs ++ [confidence]⟩)
              else
                Except.ok (spans ++ [c.toGhostSpan], some ⟨entType, s, e, [confidence]⟩)
            | none => Except.ok (spans, some ⟨entType, s, e, [confidence]⟩)
          else
            Except.ok (spans, cur)

/-- Ghost counterpart of `bioLoop`. -/
def ghostLoop (id2label : Int → Option String) (pexp : ℚ → ℚ)
    (logits : Option (List (List ℚ))) :
    List ((Int × Int) × Int) → Nat → List GhostSpan × Option GhostCur →
    Except PyErr (List GhostSpan × Option GhostCur)
  | [], _, acc => Except.ok acc
  | t :: ts, idx, acc =>
    match ghostStep id2label pexp logits acc idx t with
    | Except.error err => Except.error err
    | Except.ok acc2 => ghostLoop id2label pexp logits ts (idx + 1) acc2

/-- Ghost counterpart of `bio_to_spans`, producing spans that still carry
their constituent tokens' confidences. -/
def ghost_bio_to_spans (id2label : Int → Option String) (pexp : ℚ → ℚ)
    (text : String) (offsets : List (Int × Int)) (label_ids : List Int)
    (logits : Option (List (List ℚ))) (confidence_threshold : ℚ) :
    Except PyErr (List GhostSpan) :=
  match ghostLoop id2label pexp logits (offsets.zip label_ids) 0 ([], none) with
  | Except.error err => Except.error err
  | Except.ok acc => Except.ok (ghostFlush acc.1 acc.2)

/-- Offsets chained above a lower bound: every non-marker token in the
list starts no earlier than `lo`, is non-degenerate (`start < end`), and
the following tokens are chained above its end. -/
def chainedFrom : Int → List ((Int × Int) × Int) → Bool
  | _, [] => true
  | lo, ((s, e), _) :: rest =>
    if s = 0 ∧ e = 0 then chainedFrom lo rest
    else decide (lo ≤ s) && decide (s < e) && chainedFrom e rest

/-- Well-formed token stream: every non-marker token has `start < end` and
non-marker tokens appear in non-overlapping left-to-right order, the way
character offsets produced by a tokenizer do. -/
def tokensWF : List ((Int × Int) × Int) → Bool
  | [] => true
  | ((s, e), _) :: rest =>
    if s = 0 ∧ e = 0 then tokensWF rest
    else decide (s < e) && chainedFrom e rest

/-- The spec's span-list invariant: every span is non-degenerate
(`start < end`) and consecutive spans are strictly ordered and
non-overlapping (`span[i].end <= span[i+1].start`). -/
def spansOrdered (l : List Span) : Prop :=
  (∀ sp ∈ l, sp.start < sp.stop) ∧ List.Chain' (fun a b => a.stop ≤ b.start) l

/-- Every span of the list ends at or before the bound. -/
def spansBelow (l : List Span) (lo : Int) : Prop :=
  ∀ sp ∈ l, sp.stop ≤ lo

/-- Python's `min(a, b)` agrees with the order-theoretic minimum on ℚ. -/
lemma pymin_eq_min (a b : ℚ) : pymin a b = min a b := by
  rw [pymin, min_def]

/-- A step on a structural-marker token `(0, 0)` returns the state
unchanged and emits nothing, whatever the state, position, label id,
registry and logits are. -/
lemma bioStep_marker (id2label : Int → Option String) (pexp : ℚ → ℚ)
    (logits : Option (List (List ℚ))) (acc : List Span × Option OpenCur)
    (idx : Nat) (lid : Int) :
    bioStep id2label pexp logits acc idx ((0, 0), lid) = Except.ok acc := rfl

/-- Zipping two lists only consumes the first `min` of both lengths. -/
lemma zip_take_min {α β : Type} :
    ∀ (l1 : List α) (l2 : List β),
      (l1.take (min l1.length l2.length)).zip (l2.take (min l1.length l2.length)) =
        l1.zip l2 := by
  intro l1
  induction l1 with
  | nil => intro l2; simp
  | cons a t1 ih =>
    intro l2
    cases l2 with
    | nil => simp
    | cons b t2 =>
      simp only [List.length_cons, Nat.succ_min_succ, List.take_succ_cons,
        List.zip_cons_cons, List.cons.injEq, true_and]
      exact ih t2

/-- Claim C10: the decoded span list is a function of the offsets, label
ids and score vectors alone.  Two calls of `bio_to_spans` that differ only
in the `text` argument and/or the `confidence_threshold` parameter return
identical results: the decoder body never reads either parameter, and
thresholding happens only in the downstream filter. -/
theorem bio_to_spans_ignores_text_and_threshold
    (id2label : Int → Option String) (pexp : ℚ → ℚ)
    (text1 text2 : String) (offsets : List (Int × Int)) (label_ids : List Int)
    (logits : Option (List (List ℚ))) (ct1 ct2 : ℚ) :
    bio_to_spans id2label pexp text1 offsets label_ids logits ct1 =
      bio_to_spans id2label pexp text2 offsets label_ids logits ct2 := rfl

/-- Claim C9 (amended): a token whose offset pair is exactly `(0, 0)` is
skipped with the decoder state unchanged — it never starts, extends or
closes a span — whatever the state, position, label id, registry and
logits.  (The source's test is `start == 0 and end == 0`, not
`start == end`; see the counterexample for a zero-length token at a
nonzero position.) -/
theorem bioStep_skips_marker_token (id2label : Int → Option String)
    (pexp : ℚ → ℚ) (logits : Option (List (List ℚ)))
    (acc : List Span × Option OpenCur) (idx : Nat) (lid : Int) :
    bioStep id2label pexp logits acc idx ((0, 0), lid) = Except.ok acc :=
  bioStep_marker id2label pexp logits acc idx lid

/-- Claim C9 counterexample: a zero-length token at a nonzero position is
not skipped.  The single token `(3, 3)` labelled `B-CITY` opens and emits
a (degenerate) `CITY` span instead of leaving the output empty, refuting
the claim for every zero-length offset pair. -/
theorem zero_length_token_not_skipped :
    bio_to_spans ID2LABEL id "" [(3, 3)] [9] none (1/10) =
      Except.ok [⟨3, 3, "CITY", 1⟩] ∧
    bio_to_spans ID2LABEL id "" [(3, 3)] [9] none (1/10) ≠ Except.ok [] :=
  ⟨rfl, by decide⟩

/-- Claim C7: flush on end-of-stream.  Whenever the decoding loop finishes
with a span still open, `bio_to_spans` returns the emitted spans followed
by that final open span, so the last span is never silently dropped. -/
theorem bio_to_spans_flushes_final_open_span
    (id2label : Int → Option String) (pexp : ℚ → ℚ) (text : String)
    (offsets : List (Int × Int)) (label_ids : List Int)
    (logits : Option (List (List ℚ))) (ct : ℚ)
    (spans : List Span) (c : OpenCur)
    (h : bioLoop id2label pexp logits (offsets.zip label_ids) 0 ([], none) =
      Except.ok (spans, some c)) :
    bio_to_spans id2label pexp text offsets label_ids logits ct =
      Except.ok (spans ++ [c.toSpan]) := by
  unfold bio_to_spans
  rw [h]
  rfl

/-- Witness for C7: a stream consisting of a single `B-CITY` token ends
with the span still open, and the decoder emits it. -/
theorem bio_to_spans_flushes_final_open_span_witness :
    bio_to_spans ID2LABEL id "" [(0, 4)] [9] none (1/10) =
      Except.ok ([] ++ [OpenCur.toSpan ⟨"CITY", 0, 4, 1⟩]) :=
  bio_to_spans_flushes_final_open_span ID2LABEL id "" [(0, 4)] [9] none (1/10)
    [] ⟨"CITY", 0, 4, 1⟩ rfl

/-- Claim C8 (amended): the decoder processes exactly the first
`min(|offsets|, |label_ids|)` positions — truncating either input stream
to that length does not change the result — and cannot index out of bounds
on the offset or label streams.  (The optional score array is exempted:
see the counterexample.) -/
theorem bio_to_spans_truncates_to_min_length
    (id2label : Int → Option String) (pexp : ℚ → ℚ) (text : String)
    (offsets : List (Int × Int)) (label_ids : List Int)
    (logits : Option (List (List ℚ))) (ct : ℚ) :
    bio_to_spans id2label pexp text
        (offsets.take (min offsets.length label_ids.length))
        (label_ids.take (min offsets.length label_ids.length)) logits ct =
      bio_to_spans id2label pexp text offsets label_ids logits ct := by
  unfold bio_to_spans
  rw [zip_take_min]

/-- Claim C8 counterexample: the per-token score array is indexed by token
position without any truncation to its length.  Supplying an empty score
array together with one real token makes the decoder's row lookup go out
of bounds (`IndexError`), refuting the claim for arbitrary-length score
arrays. -/
theorem bio_to_spans_short_logits_index_error :
    bio_to_spans ID2LABEL id "" [(0, 4)] [1] (some []) (1/10) =
      Except.error PyErr.indexError := rfl

/-- The filtering loop of `main` computes exactly the spec's
filter-then-annotate contract, for every threshold value. -/
lemma sensitivityFilter_eq_specFilter (spans : List Span) (t : ℚ) :
    sensitivityFilter spans t = specFilter spans t := by
  induction spans with
  | nil => rfl
  | cons sp rest ih =>
    by_cases hp : label_is_pii sp.label
    · by_cases hc : sp.conf < t
      · simp [sensitivityFilter, specFilter, List.filter, hp, hc, not_le.2 hc] at *
        exact ih
      · simp [sensitivityFilter, specFilter, List.filter, hp, hc, not_lt.1 hc] at *
        exact ih
    · simp [sensitivityFilter, specFilter, List.filter, hp] at *
      exact ih

/-- Claim C4: for every decoded span list and every threshold in `[0, 1]`,
the sensitivity filter returns exactly the subsequence of spans whose
entity type is not PII or whose confidence is at least the threshold, in
the original order, each kept span carrying the registry's `is_pii`
flag. -/
theorem sensitivityFilter_keeps_exactly_spec_subsequence
    (spans : List Span) (t : ℚ) (h0 : 0 ≤ t) (h1 : t ≤ 1) :
    sensitivityFilter spans t = specFilter spans t :=
  sensitivityFilter_eq_specFilter spans t

/-- Witness for C4, the spec's gating example at threshold `0.5`: a PII
`PERSON_NAME` span with confidence `0.3` is dropped while a non-PII `CITY`
span with confidence `0.1` is kept. -/
theorem sensitivityFilter_keeps_exactly_spec_subsequence_witness :
    0 ≤ (1 : ℚ)/2 ∧ (1 : ℚ)/2 ≤ 1 ∧
    sensitivityFilter [⟨0, 4, "PERSON_NAME", 3/10⟩, ⟨5, 9, "CITY", 1/10⟩] (1/2) =
      specFilter [⟨0, 4, "PERSON_NAME", 3/10⟩, ⟨5, 9, "CITY", 1/10⟩] (1/2) :=
  ⟨by norm_num, by norm_num,
    sensitivityFilter_keeps_exactly_spec_subsequence
      [⟨0, 4, "PERSON_NAME", 3/10⟩, ⟨5, 9, "CITY", 1/10⟩] (1/2)
      (by norm_num) (by norm_num)⟩

/-- Claim C3 counterexample: a threshold outside `[0, 1]` is neither
rejected nor clamped.  At threshold `2` the filter proceeds normally: it
applies the usual keep rule, dropping the PII span (its confidence `1` is
below `2`) and keeping the non-PII span, instead of surfacing a failure. -/
theorem sensitivityFilter_proceeds_outside_unit_interval :
    sensitivityFilter [⟨0, 4, "PERSON_NAME", 1⟩, ⟨5, 9, "CITY", 0⟩] 2 =
      [⟨5, 9, "CITY", false⟩] ∧ ¬ ((2 : ℚ) ≤ 1) :=
  ⟨rfl, by norm_num⟩

/-- Claim C3 (amended): no validation of `confidence_threshold` is
performed anywhere — not in `bio_to_spans`, which never reads the
parameter, and not at the filter, which applies the same keep rule to
every threshold value, inside or outside `[0, 1]`. -/
theorem sensitivityFilter_no_threshold_validation (spans : List Span) (t : ℚ) :
    sensitivityFilter spans t = specFilter spans t :=
  sensitivityFilter_eq_specFilter spans t

/-- Claim C2 counterexample: an unparseable label string is not treated
like `O`, and an exception does propagate.  A registry serving the
dash-less label `"BAD"` for a real token makes the decoder raise the
unpack `ValueError`, while the same token under label `"O"` decodes
normally to the empty span list. -/
theorem unparseable_label_raises_value_error :
    bio_to_spans (fun i => if i = 1 then some "BAD" else none) id ""
        [(0, 3)] [1] none (1/10) = Except.error PyErr.valueError ∧
    bio_to_spans (fun _ => some "O") id "" [(0, 3)] [1] none (1/10) =
      Except.ok [] :=
  ⟨rfl, rfl⟩

/-- Claim C2 (amended): the decoder's treatment of unparseable label
strings splits in two, neither of which matches `O`'s close-and-emit
behaviour.  A label containing a dash but whose prefix is neither `B` nor
`I` is a strict no-op: the state is returned unchanged, so an open span
stays open instead of being closed and emitted.  A label other than `"O"`
containing no dash raises the unpack `ValueError`, which propagates out of
decoding. -/
theorem bioStep_unparseable_label_not_O :
    (∀ (id2label : Int → Option String) (pexp : ℚ → ℚ)
       (logits : Option (List (List ℚ))) (spans : List Span)
       (cur : Option OpenCur) (idx : Nat) (s e lid : Int)
       (lbl pre ent : String) (c : ℚ),
       ¬(s = 0 ∧ e = 0) →
       (id2label lid).getD "O" = lbl →
       lbl ≠ "O" →
       tokenConfidence pexp logits idx lid = Except.ok c →
       splitFirstDash lbl = some (pre, ent) →
       pre ≠ "B" → pre ≠ "I" →
       bioStep id2label pexp logits (spans, cur) idx ((s, e), lid) =
         Except.ok (spans, cur)) ∧
    (∀ (id2label : Int → Option String) (pexp : ℚ → ℚ)
       (logits : Option (List (List ℚ))) (spans : List Span)
       (cur : Option OpenCur) (idx : Nat) (s e lid : Int)
       (lbl : String) (c : ℚ),
       ¬(s = 0 ∧ e = 0) →
       (id2label lid).getD "O" = lbl →
       lbl ≠ "O" →
       tokenConfidence pexp logits idx lid = Except.ok c →
       splitFirstDash lbl = none →
       bioStep id2label pexp logits (spans, cur) idx ((s, e), lid) =
         Except.error PyErr.valueError) := by
  constructor
  · intro id2label pexp logits spans cur idx s e lid lbl pre ent c
      hm hlbl hO hc hsplit hB hI
    simp only [bioStep]
    rw [if_neg hm]
    simp only [hc, hlbl, hsplit, if_neg hO, if_neg hB, if_neg hI]
  · intro id2label pexp logits spans cur idx s e lid lbl c hm hlbl hO hc hsplit
    simp only [bioStep]
    rw [if_neg hm]
    simp only [hc, hlbl, hsplit, if_neg hO]

/-- Witness for the amended C2: the bad-prefix label `"X-FOO"` leaves an
open `CITY` span open (a no-op, where `O` would have emitted it), and the
dash-less label `"BAD"` raises the unpack error. -/
theorem bioStep_unparseable_label_not_O_witness :
    bioStep (fun _ => some "X-FOO") id none ([], some ⟨"CITY", 0, 2, 1⟩) 0
        ((2, 4), 1) = Except.ok ([], some ⟨"CITY", 0, 2, 1⟩) ∧
    bioStep (fun _ => some "BAD") id none ([], none) 0 ((0, 3), 1) =
      Except.error PyErr.valueError :=
  ⟨bioStep_unparseable_label_not_O.1 (fun _ => some "X-FOO") id none []
      (some ⟨"CITY", 0, 2, 1⟩) 0 2 4 1 "X-FOO" "X" "FOO" 1
      (by decide) rfl (by decide) rfl rfl (by decide) (by decide),
    bioStep_unparseable_label_not_O.2 (fun _ => some "BAD") id none [] none 0
      0 3 1 "BAD" 1 (by decide) rfl (by decide) rfl rfl⟩

/-- Claim C6: orphan-`I` recovery.  An `I-X` token arriving with no open
span, or with an open span of a different type, is handled exactly like a
`B-X`: the open span (if any) is emitted first and a new `X` span is
opened at the token's offsets with the token's confidence — the token is
never dropped. -/
theorem bioStep_orphan_I_opens_span (id2label : Int → Option String)
    (pexp : ℚ → ℚ) (logits : Option (List (List ℚ))) (spans : List Span)
    (cur : Option OpenCur) (idx : Nat) (s e lid : Int) (lbl ent : String)
    (c : ℚ)
    (hm : ¬(s = 0 ∧ e = 0))
    (hlbl : (id2label lid).getD "O" = lbl)
    (hc : tokenConfidence pexp logits idx lid = Except.ok c)
    (hsplit : splitFirstDash lbl = some ("I", ent))
    (hcur : cur = none ∨ ∃ cc, cur = some cc ∧ cc.label ≠ ent) :
    bioStep id2label pexp logits (spans, cur) idx ((s, e), lid) =
      Except.ok (flushSpans spans cur, some ⟨ent, s, e, c⟩) := by
  have hO : lbl ≠ "O" := by
    intro h
    rw [h] at hsplit
    rw [show splitFirstDash "O" = none from rfl] at hsplit
    exact Option.noConfusion hsplit
  simp only [bioStep]
  rw [if_neg hm]
  simp only [hc, hlbl, hsplit, if_neg hO]
  rw [if_pos trivial]
  rcases hcur with h | ⟨cc, hcc, hne⟩
  · subst h
    rfl
  · subst hcc
    simp [flushSpans, hne]

/-- Witness for C6: a lone `I-EMAIL` token with no open span produces an
open `EMAIL` span starting at that token, not a dropped token. -/
theorem bioStep_orphan_I_opens_span_witness :
    bioStep ID2LABEL id none ([], none) 0 ((2, 7), 6) =
      Except.ok (flushSpans [] none, some ⟨"EMAIL", 2, 7, 1⟩) :=
  bioStep_orphan_I_opens_span ID2LABEL id none [] none 0 2 7 6 "I-EMAIL"
    "EMAIL" 1 (by decide) rfl rfl rfl (Or.inl rfl)

/-- Erasing a ghost open state to the decoder's open state: the running
confidence is the minimum of the recorded constituent confidences. -/
def GhostCur.erase (g : GhostCur) : OpenCur :=
  ⟨g.label, g.start, g.stop, minConfs g.confs⟩

/-- Appending one confidence to a nonempty list takes the minimum with the
list's minimum. -/
lemma minConfs_append (a : ℚ) (t : List ℚ) (c : ℚ) :
    minConfs ((a :: t) ++ [c]) = min (minConfs (a :: t)) c := by
  simp only [minConfs, List.cons_append, List.foldl_append, List.foldl_cons,
    List.foldl_nil]

/-- Flushing commutes with erasing the ghost state. -/
lemma flush_map (gspans : List GhostSpan) (gcur : Option GhostCur) :
    flushSpans (gspans.map GhostSpan.toSpan) (gcur.map GhostCur.erase) =
      (ghostFlush gspans gcur).map GhostSpan.toSpan := by
  cases gcur with
  | none => rfl
  | some g => simp [flushSpans, ghostFlush, GhostCur.erase, OpenCur.toSpan,
      GhostSpan.toSpan, GhostCur.toGhostSpan]

/-- One decoder step is the erasure of one ghost step: the running-minimum
confidence tracks the minimum of the recorded constituent confidences. -/
lemma ghostStep_erase (id2label : Int → Option String) (pexp : ℚ → ℚ)
    (logits : Option (List (List ℚ))) (gspans : List GhostSpan)
    (gcur : Option GhostCur) (idx : Nat) (s e lid : Int)
    (hne : ∀ g, gcur = some g → g.confs ≠ []) :
    bioStep id2label pexp logits
        (gspans.map GhostSpan.toSpan, gcur.map GhostCur.erase) idx ((s, e), lid) =
      (ghostStep id2label pexp logits (gspans, gcur) idx ((s, e), lid)).map
        (fun acc => (acc.1.map GhostSpan.toSpan, acc.2.map GhostCur.erase)) := by
  simp only [bioStep, ghostStep]
  by_cases hm : s = 0 ∧ e = 0
  · simp only [if_pos hm]
    rfl
  · simp only [if_neg hm]
    cases hconf : tokenConfidence pexp logits idx lid with
    | error err => rfl
    | ok c =>
      by_cases hO : (id2label lid).getD "O" = "O"
      · simp only [if_pos hO]
        cases gcur with
        | none => rfl
        | some g =>
          simp [Option.map_some, Except.map, OpenCur.toSpan, GhostCur.erase,
            GhostSpan.toSpan, GhostCur.toGhostSpan]
      · simp only [if_neg hO]
        cases hsplit : splitFirstDash ((id2label lid).getD "O") with
        | none => rfl
        | some pr =>
          obtain ⟨pre, ent⟩ := pr
          by_cases hB : pre = "B"
          · simp only [if_pos hB]
            simp [Except.map, flush_map, Option.map_some, GhostCur.erase, minConfs]
          · simp only [if_neg hB]
            by_cases hI : pre = "I"
            · simp only [if_pos hI]
              cases gcur with
              | none => rfl
              | some g =>
                have hgne : g.confs ≠ [] := hne g rfl
                by_cases hlb : g.label = ent
                · simp only [Option.map_some, GhostCur.erase, hlb, if_pos rfl, Except.map]
                  cases hcs : g.confs with
                  | nil => exact absurd hcs hgne
                  | cons a t =>
                    simp [hcs, hlb, minConfs_append, pymin_eq_min, GhostCur.erase,
                      Option.map, Except.map, minConfs]
                · simp [Option.map, GhostCur.erase, if_neg hlb, Except.map,
                    OpenCur.toSpan, GhostSpan.toSpan, GhostCur.toGhostSpan, minConfs]
            · simp only [if_neg hI]
              rfl

/-- Every ghost state reachable by a ghost step keeps the recorded
constituent-confidence list of any open span nonempty. -/
lemma ghostStep_confs_ne (id2label : Int → Option String) (pexp : ℚ → ℚ)
    (logits : Option (List (List ℚ))) (gspans : List GhostSpan)
    (gcur : Option GhostCur) (idx : Nat) (s e lid : Int)
    (acc2 : List GhostSpan × Option GhostCur)
    (hne : ∀ g, gcur = some g → g.confs ≠ [])
    (hok : ghostStep id2label pexp logits (gspans, gcur) idx ((s, e), lid) =
      Except.ok acc2) :
    ∀ g, acc2.2 = some g → g.confs ≠ [] := by
  simp only [ghostStep] at hok
  by_cases hm : s = 0 ∧ e = 0
  · simp only [if_pos hm] at hok
    injection hok with h
    rw [← h]
    exact hne
  · simp only [if_neg hm] at hok
    cases hconf : tokenConfidence pexp logits idx lid with
    | error err => rw [hconf] at hok; exact absurd hok (by simp)
    | ok c =>
      rw [hconf] at hok
      by_cases hO : (id2label lid).getD "O" = "O"
      · simp only [if_pos hO] at hok
        cases gcur with
        | none =>
          injection hok with h
          rw [← h]
          exact hne
        | some g =>
          injection hok with h
          rw [← h]
          intro g2 hg2
          exact Option.noConfusion hg2
      · simp only [if_neg hO] at hok
        cases hsplit : splitFirstDash ((id2label lid).getD "O") with
        | none => rw [hsplit] at hok; exact absurd hok (by simp)
        | some pr =>
          rw [hsplit] at hok
          obtain ⟨pre, ent⟩ := pr
          by_cases hB : pre = "B"
          · simp only [if_pos hB] at hok
            injection hok with h
            rw [← h]
            intro g2 hg2
            injection hg2 with h2
            rw [← h2]
            simp
          · simp only [if_neg hB] at hok
            by_cases hI : pre = "I"
            · simp only [if_pos hI] at hok
              cases gcur with
              | none =>
                injection hok with h
                rw [← h]
                intro g2 hg2
                injection hg2 with h2
                rw [← h2]
                simp
              | some g =>
                by_cases hlb : g.label = ent
                · simp only [if_pos hlb] at hok
                  injection hok with h
                  rw [← h]
                  intro g2 hg2
                  injection hg2 with h2
                  rw [← h2]
                  simp
                · simp only [if_neg hlb] at hok
                  injection hok with h
                  rw [← h]
                  intro g2 hg2
                  injection hg2 with h2
                  rw [← h2]
                  simp
            · simp only [if_neg hI] at hok
              injection hok with h
              rw [← h]
              exact hne

/-- The decoding loop is the erasure of the ghost loop. -/
lemma ghostLoop_erase (id2label : Int → Option String) (pexp : ℚ → ℚ)
    (logits : Option (List (List ℚ))) :
    ∀ (toks : List ((Int × Int) × Int)) (idx : Nat) (gspans : List GhostSpan)
      (gcur : Option GhostCur), (∀ g, gcur = some g → g.confs ≠ []) →
      bioLoop id2label pexp logits toks idx
          (gspans.map GhostSpan.toSpan, gcur.map GhostCur.erase) =
        (ghostLoop id2label pexp logits toks idx (gspans, gcur)).map
          (fun acc => (acc.1.map GhostSpan.toSpan, acc.2.map GhostCur.erase)) := by
  intro toks
  induction toks with
  | nil => intro idx gspans gcur hne; rfl
  | cons t ts ih =>
    intro idx gspans gcur hne
    obtain ⟨⟨s, e⟩, lid⟩ := t
    simp only [bioLoop, ghostLoop]
    rw [ghostStep_erase id2label pexp logits gspans gcur idx s e lid hne]
    cases hstep : ghostStep id2label pexp logits (gspans, gcur) idx ((s, e), lid) with
    | error err => rfl
    | ok acc2 =>
      simp only [Except.map]
      exact ih (idx + 1) acc2.1 acc2.2
        (ghostStep_confs_ne id2label pexp logits gspans gcur idx s e lid acc2 hne hstep)

/-- Claim C5: min-confidence aggregation.  The decoder is the erasure of a
ghost decoder that records the confidences of each span's constituent
tokens (the token that opened it and every matching `I` token that
extended it): every emitted span's confidence is the minimum of those
constituent confidences.  In particular, on the spec's example a span
built from tokens with confidences `[0.9, 0.8, 0.95]` (realized through
the softmax path) reports aggregated confidence `0.8`. -/
theorem bio_to_spans_conf_is_min_of_constituent_tokens :
    (∀ (id2label : Int → Option String) (pexp : ℚ → ℚ) (text : String)
       (offsets : List (Int × Int)) (label_ids : List Int)
       (logits : Option (List (List ℚ))) (ct : ℚ),
       bio_to_spans id2label pexp text offsets label_ids logits ct =
         (ghost_bio_to_spans id2label pexp text offsets label_ids logits ct).map
           (List.map GhostSpan.toSpan)) ∧
    ghost_bio_to_spans ID2LABEL id "t" [(0, 1), (1, 2), (2, 3)] [9, 10, 10]
        (some [[1,0,0,0,0,0,0,0,0,9,0],[2,0,0,0,0,0,0,0,0,0,8],[1,0,0,0,0,0,0,0,0,0,19]])
        (1/10) = Except.ok [⟨0, 3, "CITY", [9/10, 4/5, 19/20]⟩] ∧
    bio_to_spans ID2LABEL id "t" [(0, 1), (1, 2), (2, 3)] [9, 10, 10]
        (some [[1,0,0,0,0,0,0,0,0,9,0],[2,0,0,0,0,0,0,0,0,0,8],[1,0,0,0,0,0,0,0,0,0,19]])
        (1/10) = Except.ok [⟨0, 3, "CITY", 4/5⟩] ∧
    minConfs [9/10, 4/5, 19/20] = 4/5 := by
  refine ⟨?_, ?_, ?_, ?_⟩
  · intro id2label pexp text offsets label_ids logits ct
    unfold bio_to_spans ghost_bio_to_spans
    have h := ghostLoop_erase id2label pexp logits (offsets.zip label_ids) 0 [] none
      (by intro g hg; exact Option.noConfusion hg)
    simp only [List.map_nil, Option.map_none'] at h
    rw [h]
    cases hloop : ghostLoop id2label pexp logits (offsets.zip label_ids) 0 ([], none) with
    | error err => rfl
    | ok acc => simp only [Except.map, flush_map]
  · simp +decide [ghost_bio_to_spans, ghostLoop, ghostStep, tokenConfidence,
      torchSoftmax, tensorGet, splitFirstDash, splitFirstDashAux, ID2LABEL,
      ghostFlush, GhostCur.toGhostSpan]
    norm_num
  · simp +decide [bio_to_spans, bioLoop, bioStep, tokenConfidence, torchSoftmax,
      tensorGet, splitFirstDash, splitFirstDashAux, ID2LABEL, pymin, flushSpans,
      OpenCur.toSpan]
    norm_num
  · norm_num [minConfs]

/-- Weakening the upper bound of `spansBelow`. -/
lemma spansBelow_mono {l : List Span} {lo b : Int}
    (h : spansBelow l lo) (hb : lo ≤ b) : spansBelow l b :=
  fun sp hsp => le_trans (h sp hsp) hb

/-- Appending a span that respects the bound keeps `spansBelow`. -/
lemma spansBelow_append {l : List Span} {a : Span} {b : Int}
    (h : spansBelow l b) (ha : a.stop ≤ b) : spansBelow (l ++ [a]) b := by
  intro sp hsp
  rcases List.mem_append.1 hsp with hl | hr
  · exact h sp hl
  · rw [List.mem_singleton.1 hr]
    exact ha

/-- Appending a non-degenerate span that starts after the last span ends
preserves the ordering invariant. -/
lemma spansOrdered_append_last {l : List Span} {a : Span}
    (hmem : ∀ sp ∈ l, sp.start < sp.stop)
    (hch : List.Chain' (fun x y => x.stop ≤ y.start) l)
    (hlast : ∀ x ∈ l.getLast?, x.stop ≤ a.start)
    (ha : a.start < a.stop) :
    spansOrdered (l ++ [a]) := by
  constructor
  · intro sp hsp
    rcases List.mem_append.1 hsp with hl | hr
    · exact hmem sp hl
    · rw [List.mem_singleton.1 hr]
      exact ha
  · refine List.chain'_append.2 ⟨hch, List.chain'_singleton a, ?_⟩
    intro x hx y hy
    rw [show y = a from (by simpa using hy : a = y).symm]
    exact hlast x hx

/-- Appending a non-degenerate span that starts at or after a bound on all
previous spans preserves the ordering invariant. -/
lemma spansOrdered_append {l : List Span} {a : Span} {lo : Int}
    (hord : spansOrdered l) (hbel : spansBelow l lo)
    (h1 : lo ≤ a.start) (h2 : a.start < a.stop) :
    spansOrdered (l ++ [a]) := by
  refine spansOrdered_append_last hord.1 hord.2 ?_ h2
  intro x hx
  have hxl : x ∈ l := by
    rcases List.mem_getLast?_eq_getLast hx with ⟨hne, hxeq⟩
    rw [hxeq]
    exact List.getLast_mem hne
  exact le_trans (hbel x hxl) h1

/-- The step invariant for the ordering proof: on a well-placed non-marker
token (`lo <= start < end`, with every already-present span ending at or
before `lo`), a successful step keeps the flushed span list ordered and
bounded by the token's end. -/
lemma bioStep_inv (id2label : Int → Option String) (pexp : ℚ → ℚ)
    (logits : Option (List (List ℚ))) (spans : List Span) (cur : Option OpenCur)
    (idx : Nat) (s e lid lo : Int) (acc2 : List Span × Option OpenCur)
    (hstep : bioStep id2label pexp logits (spans, cur) idx ((s, e), lid) =
      Except.ok acc2)
    (hm : ¬(s = 0 ∧ e = 0)) (hlo : lo ≤ s) (hse : s < e)
    (hord : spansOrdered (flushSpans spans cur))
    (hbel : spansBelow (flushSpans spans cur) lo) :
    spansOrdered (flushSpans acc2.1 acc2.2) ∧
      spansBelow (flushSpans acc2.1 acc2.2) e := by
  have hloe : lo ≤ e := le_of_lt (lt_of_le_of_lt hlo hse)
  simp only [bioStep] at hstep
  rw [if_neg hm] at hstep
  cases hconf : tokenConfidence pexp logits idx lid with
  | error err => rw [hconf] at hstep; exact absurd hstep (by simp)
  | ok c =>
    rw [hconf] at hstep
    by_cases hO : (id2label lid).getD "O" = "O"
    · simp only [if_pos hO] at hstep
      cases cur with
      | none =>
        injection hstep with h
        rw [← h]
        exact ⟨hord, spansBelow_mono hbel hloe⟩
      | some cc =>
        injection hstep with h
        rw [← h]
        exact ⟨hord, spansBelow_mono hbel hloe⟩
    · simp only [if_neg hO] at hstep
      cases hsplit : splitFirstDash ((id2label lid).getD "O") with
      | none => rw [hsplit] at hstep; exact absurd hstep (by simp)
      | some pr =>
        rw [hsplit] at hstep
        obtain ⟨pre, ent⟩ := pr
        by_cases hB : pre = "B"
        · simp only [if_pos hB] at hstep
          injection hstep with h
          rw [← h]
          constructor
          · exact spansOrdered_append hord hbel hlo hse
          · exact spansBelow_append (spansBelow_mono hbel hloe) (le_refl e)
        · simp only [if_neg hB] at hstep
          by_cases hI : pre = "I"
          · simp only [if_pos hI] at hstep
            cases cur with
            | none =>
              injection hstep with h
              rw [← h]
              constructor
              · exact spansOrdered_append hord hbel hlo hse
              · exact spansBelow_append (spansBelow_mono hbel hloe) (le_refl e)
            | some cc =>
              by_cases hlb : cc.label = ent
              · simp only [if_pos hlb] at hstep
                injection hstep with h
                rw [← h]
                have hccmem : cc.toSpan ∈ flushSpans spans (some cc) := by
                  simp [flushSpans]
                have hccstop : cc.stop ≤ lo := hbel cc.toSpan hccmem
                have hccse : cc.start < cc.stop := hord.1 cc.toSpan hccmem
                have hchain := List.chain'_append.1 hord.2
                constructor
                · refine spansOrdered_append_last ?_ hchain.1 ?_ ?_
                  · intro sp hsp
                    exact hord.1 sp (List.mem_append_left _ hsp)
                  · intro x hx
                    have := hchain.2.2 x hx cc.toSpan (by simp)
                    exact this
                  · show cc.start < e
                    omega
                · refine spansBelow_append ?_ (le_refl e)
                  intro sp hsp
                  have := hbel sp (List.mem_append_left _ hsp)
                  omega
              · simp only [if_neg hlb] at hstep
                injection hstep with h
                rw [← h]
                constructor
                · exact spansOrdered_append hord hbel hlo hse
                · exact spansBelow_append (spansBelow_mono hbel hloe) (le_refl e)
          · simp only [if_neg hI] at hstep
            injection hstep with h
            rw [← h]
            exact ⟨hord, spansBelow_mono hbel hloe⟩

/-- The loop invariant: over a token stream chained above `lo`, a
successful run of the decoding loop keeps the flushed span list ordered. -/
lemma bioLoop_inv (id2label : Int → Option String) (pexp : ℚ → ℚ)
    (logits : Option (List (List ℚ))) :
    ∀ (toks : List ((Int × Int) × Int)) (idx : Nat) (spans : List Span)
      (cur : Option OpenCur) (lo : Int) (out : List Span × Option OpenCur),
      spansOrdered (flushSpans spans cur) → spansBelow (flushSpans spans cur) lo →
      chainedFrom lo toks = true →
      bioLoop id2label pexp logits toks idx (spans, cur) = Except.ok out →
      spansOrdered (flushSpans out.1 out.2) := by
  intro toks
  induction toks with
  | nil =>
    intro idx spans cur lo out hord hbel hchain hloop
    injection hloop with h
    rw [← h]
    exact hord
  | cons t ts ih =>
    intro idx spans cur lo out hord hbel hchain hloop
    obtain ⟨⟨s, e⟩, lid⟩ := t
    by_cases hm : s = 0 ∧ e = 0
    · obtain ⟨hs, he⟩ := hm
      subst hs
      subst he
      rw [show chainedFrom lo ((((0 : Int), (0 : Int)), lid) :: ts) =
        chainedFrom lo ts from by simp [chainedFrom]] at hchain
      simp only [bioLoop, bioStep_marker] at hloop
      exact ih (idx + 1) spans cur lo out hord hbel hchain hloop
    · rw [show chainedFrom lo ((((s : Int), (e : Int)), lid) :: ts) =
        (decide (lo ≤ s) && decide (s < e) && chainedFrom e ts) from by
          simp [chainedFrom, hm]] at hchain
      simp only [Bool.and_eq_true, decide_eq_true_eq] at hchain
      obtain ⟨⟨hlo, hse⟩, hrest⟩ := hchain
      simp only [bioLoop] at hloop
      cases hstep : bioStep id2label pexp logits (spans, cur) idx ((s, e), lid) with
      | error err => rw [hstep] at hloop; exact absurd hloop (by simp)
      | ok acc2 =>
        rw [hstep] at hloop
        obtain ⟨h1, h2⟩ := bioStep_inv id2label pexp logits spans cur idx s e lid
          lo acc2 hstep hm hlo hse hord hbel
        exact ih (idx + 1) acc2.1 acc2.2 e out h1 h2 hrest hloop

/-- A well-formed token stream is chained above some lower bound. -/
lemma tokensWF_chainedFrom :
    ∀ toks, tokensWF toks = true → ∃ lo, chainedFrom lo toks = true := by
  intro toks
  induction toks with
  | nil => intro _; exact ⟨0, rfl⟩
  | cons t ts ih =>
    intro hwf
    obtain ⟨⟨s, e⟩, lid⟩ := t
    by_cases hm : s = 0 ∧ e = 0
    · obtain ⟨hs, he⟩ := hm
      subst hs
      subst he
      rw [show tokensWF ((((0 : Int), (0 : Int)), lid) :: ts) = tokensWF ts from by
        simp [tokensWF]] at hwf
      obtain ⟨lo, hlo⟩ := ih hwf
      refine ⟨lo, ?_⟩
      simp [chainedFrom, hlo]
    · rw [show tokensWF ((((s : Int), (e : Int)), lid) :: ts) =
        (decide (s < e) && chainedFrom e ts) from by simp [tokensWF, hm]] at hwf
      refine ⟨s, ?_⟩
      simp only [chainedFrom, if_neg hm]
      simp only [Bool.and_eq_true, decide_eq_true_eq] at hwf ⊢
      exact ⟨⟨le_refl s, hwf.1⟩, hwf.2⟩

/-- Claim C1 (amended): for every input whose non-marker token offsets are
well-formed — each has `start < end` and consecutive non-marker tokens are
ordered and non-overlapping, as character offsets produced by a tokenizer
are — every span list returned by `bio_to_spans` satisfies `start < end`
for each span and is sorted with `span[i].end <= span[i+1].start` for
consecutive spans.  (Unrestricted offsets refute the claim; see the
counterexample.) -/
theorem bio_to_spans_sorted_nonoverlapping (id2label : Int → Option String) (pexp : ℚ → ℚ) (text : String)
    (offsets : List (Int × Int)) (label_ids : List Int)
    (logits : Option (List (List ℚ))) (ct : ℚ) (spans : List Span)
    (hwf : tokensWF (offsets.zip label_ids) = true)
    (hok : bio_to_spans id2label pexp text offsets label_ids logits ct =
      Except.ok spans) :
    spansOrdered spans := by
  obtain ⟨lo, hchain⟩ := tokensWF_chainedFrom _ hwf
  unfold bio_to_spans at hok
  cases hloop : bioLoop id2label pexp logits (offsets.zip label_ids) 0 ([], none) with
  | error err => rw [hloop] at hok; exact absurd hok (by simp)
  | ok acc =>
    rw [hloop] at hok
    injection hok with h
    rw [← h]
    refine bioLoop_inv id2label pexp logits (offsets.zip label_ids) 0 [] none lo acc
      ?_ ?_ hchain hloop
    · exact ⟨by simp [flushSpans], List.chain'_nil⟩
    · intro sp hsp
      simp [flushSpans] at hsp

/-- Witness for C1: two well-formed tokens `B-PERSON_NAME` and `B-PHONE`
decode to an ordered, non-overlapping span list. -/
theorem bio_to_spans_sorted_nonoverlapping_witness :
    tokensWF ([((0 : Int), (4 : Int)), (5, 9)].zip [(1 : Int), 3]) = true ∧
    spansOrdered [⟨0, 4, "PERSON_NAME", 1⟩, ⟨5, 9, "PHONE", 1⟩] :=
  ⟨rfl, bio_to_spans_sorted_nonoverlapping ID2LABEL id "" [(0, 4), (5, 9)] [1, 3] none (1/10)
    [⟨0, 4, "PERSON_NAME", 1⟩, ⟨5, 9, "PHONE", 1⟩] rfl rfl⟩

/-- Claim C1 counterexample: with unordered input offsets the decoder
returns an unsorted, overlapping span list, refuting the claim for
arbitrary (character-offset-pair, label-id, confidence) inputs. -/
theorem bio_to_spans_unordered_offsets_unsorted_output :
    bio_to_spans ID2LABEL id "" [(5, 10), (1, 2)] [1, 1] none (1/10) =
      Except.ok [⟨5, 10, "PERSON_NAME", 1⟩, ⟨1, 2, "PERSON_NAME", 1⟩] ∧
    ¬ spansOrdered [⟨5, 10, "PERSON_NAME", 1⟩, ⟨1, 2, "PERSON_NAME", 1⟩] := by
  constructor
  · rfl
  · intro h
    have hch := h.2
    rw [List.chain'_cons] at hch
    have h10 : (10 : Int) ≤ 1 := hch.1
    omega
